import Mathlib

set_option autoImplicit false

/-!
Shallow embedding of `fast_censor/profanity_check_trie.py` (classes `TrieNode`,
`FastCensor`, `ProfanityMatchIterator`).

Python object references are modelled by an arena: the trie is a list of nodes
and a "pointer" is an index into that list, which faithfully captures the
aliasing in the source (one child node appearing in several label lists of its
parent).  Python dicts (`defaultdict(list)` for `TrieNode.children`, the
substitution mapping) are modelled as insertion-ordered association lists,
matching CPython's insertion-ordered dict semantics.  Python sets are modelled
as duplicate-free lists; every theorem below is insensitive to the iteration
order of those sets.
-/

/-- Python runtime errors raised by the modelled code paths. -/
inductive PyErr where
  | attributeError
  | typeError
  | indexError
  | keyError
deriving Repr, DecidableEq

instance {ε α : Type} [DecidableEq ε] [DecidableEq α] : DecidableEq (Except ε α) :=
  fun a b =>
    match a, b with
    | .ok x, .ok y => decidable_of_iff (x = y) (by simp)
    | .error x, .error y => decidable_of_iff (x = y) (by simp)
    | .ok _, .error _ => isFalse (fun h => Except.noConfusion h)
    | .error _, .ok _ => isFalse (fun h => Except.noConfusion h)

/-- List indexing with a default, by simple recursion (models Python list
indexing; every index the source produces is in range). -/
def listGetD {α : Type} : List α → Nat → α → α
  | [], _, d => d
  | a :: _, 0, _ => a
  | _ :: as, n+1, d => listGetD as n d

/-- In-place update of one arena slot (models mutating one Python object). -/
def listModify {α : Type} : List α → Nat → (α → α) → List α
  | [], _, _ => []
  | a :: as, 0, f => f a :: as
  | a :: as, n+1, f => a :: listModify as n f

/-- `TrieNode` from the source: `val` is the canonical character of the node
(`none` models the head node's empty string value), `children` is the
insertion-ordered `defaultdict(list)` mapping an input character to the
ordered list of child node indices, and `end_node_string` is the terminal
word (empty when the node is not terminal). -/
structure TrieNode where
  val : Option Char
  children : List (Char × List Nat)
  end_node_string : String
deriving Repr, DecidableEq, Inhabited

/-- The node arena; index 0 is the head node created by `build_trie`. -/
structure Trie where
  nodes : List TrieNode
deriving Repr, DecidableEq, Inhabited

/-- `pointer.children.get(c)`: dict lookup returning `none` when the key is
absent (`dict.get` does not insert, even on a `defaultdict`). -/
def childrenGet : List (Char × List Nat) → Char → Option (List Nat)
  | [], _ => none
  | p :: ps, c => if p.1 = c then some p.2 else childrenGet ps c

/-- `pointer.children[char].append(idx)` on a `defaultdict(list)`: append to
the existing list, or create the key at the end of the dict (insertion order)
with a singleton list. -/
def childrenAppend : List (Char × List Nat) → Char → Nat → List (Char × List Nat)
  | [], c, idx => [(c, [idx])]
  | p :: ps, c, idx =>
    if p.1 = c then (p.1, p.2 ++ [idx]) :: ps else p :: childrenAppend ps c idx

/-- The substitution map: canonical character to its substitution characters. -/
abbrev Mapping := List (Char × List Char)

/-- `self.mapping.get(c)`. -/
def mappingGet : Mapping → Char → Option (List Char)
  | [], _ => none
  | p :: ps, c => if p.1 = c then some p.2 else mappingGet ps c

/-- `FastCensor.CHARS_MAPPING`, in the order of the source literal. -/
def CHARS_MAPPING : Mapping :=
  [ ('a', ['a', '@', '*', '4']),
    ('i', ['i', '*', 'l', '1']),
    ('o', ['o', '*', '0', '@']),
    ('u', ['u', '*', 'v']),
    ('v', ['v', '*', 'u']),
    ('l', ['l', '1']),
    ('e', ['e', '*', '3']),
    ('s', ['s', '$', '5']),
    ('t', ['t', '7']) ]

/-- `FastCensor.default_delimiters = set(" \t\n_.,")`. -/
def defaultDelimiters : List Char := [' ', '\t', '\n', '_', '.', ',']

/-- The characters `str.strip()` removes when called with no argument. -/
def pyWhitespace : List Char := [' ', '\t', '\n', '\r', '\x0b', '\x0c']

/-- `word.strip(strip)`: `none` models Python `None` (strip whitespace);
`some cs` strips exactly the characters in `cs` (so `some []` models the
empty string configuration, which strips nothing). -/
def pyStrip (strip : Option (List Char)) (w : String) : String :=
  let cs := strip.getD pyWhitespace
  ⟨((w.toList.dropWhile (fun c => cs.contains c)).reverse.dropWhile
      (fun c => cs.contains c)).reverse⟩

/-- The `FastCensor` instance state relevant to the core: the substitution
mapping, delimiter set, strip configuration, the `keep_word_set` flag, the
censor character, the retained word set (`self.words`, `none` when not kept)
and the trie. -/
structure Censor where
  mapping : Mapping
  delimiters : List Char
  strip : Option (List Char)
  keepWordSet : Bool
  censorChar : Char
  wordSet : Option (List String)
  trie : Trie
deriving Repr, DecidableEq, Inhabited

/-- The creation branch of `add_word` taken when `pointer.children.get(c)` is
`None`: create a new node for `c` and register it as a child of node `p`
under every member of `c`'s substitution set (or under `c` alone when `c` is
not in the mapping), appending to each label's child list.  Returns the
updated trie and the new node's index. -/
def registerNewChild (m : Mapping) (t : Trie) (p : Nat) (c : Char) : Trie × Nat :=
  let newIdx := t.nodes.length
  let chars := (mappingGet m c).getD [c]
  let nodes1 := t.nodes ++ [{ val := some c, children := [], end_node_string := "" }]
  let nodes2 := listModify nodes1 p
    (fun n => { n with children := chars.foldl (fun cs ch => childrenAppend cs ch newIdx) n.children })
  (⟨nodes2⟩, newIdx)

/-- The per-character walk of `add_word`: look up label `c` on the current
node; if the label is absent create and register a node under the whole
substitution set; if the label is present reuse the first child whose `val`
is `c`, and otherwise append a fresh node under label `c` only. -/
def addWordLoop (m : Mapping) : Trie → Nat → List Char → Trie × Nat
  | t, p, [] => (t, p)
  | t, p, c :: cs =>
    let pnode := listGetD t.nodes p default
    match childrenGet pnode.children c with
    | none =>
      let r := registerNewChild m t p c
      addWordLoop m r.1 r.2 cs
    | some lst =>
      match lst.find? (fun idx => (listGetD t.nodes idx default).val == some c) with
      | some idx => addWordLoop m t idx cs
      | none =>
        let newIdx := t.nodes.length
        let nodes1 := t.nodes ++ [{ val := some c, children := [], end_node_string := "" }]
        let nodes2 := listModify nodes1 p
          (fun n => { n with children := childrenAppend n.children c newIdx })
        addWordLoop m ⟨nodes2⟩ newIdx cs

/-- `pointer.end_node_string = word`. -/
def setEndString (t : Trie) (p : Nat) (w : String) : Trie :=
  ⟨listModify t.nodes p (fun n => { n with end_node_string := w })⟩

/-- `FastCensor.add_word`: strip the word, skip it when empty, add it to the
retained word set, walk/extend the trie over the lower-cased characters
starting at the head node, then, when the walk left the head node, set the
final node's `end_node_string` to the stripped (not lower-cased) word. -/
def addWordC (cz : Censor) (word : String) : Censor :=
  let w := pyStrip cz.strip word
  if w = "" then cz
  else
    let cz1 :=
      match cz.wordSet with
      | some ws => { cz with wordSet := some (if ws.contains w then ws else ws ++ [w]) }
      | none => cz
    let r := addWordLoop cz1.mapping cz1.trie 0 (w.toList.map Char.toLower)
    if r.2 ≠ 0 then { cz1 with trie := setEndString r.1 r.2 w }
    else { cz1 with trie := r.1 }

/-- `FastCensor.build_trie` on a plain Python list of words: reset the
retained word set (when `keep_word_set`), create a fresh head node, then
repeatedly pop the last word and `add_word` it until the list is empty —
pop-last order is a fold over the reversed list. -/
def buildWords (cz : Censor) (ws : List String) : Censor :=
  let cz0 := { cz with
    wordSet := if cz.keepWordSet then some [] else none,
    trie := ⟨[{ val := none, children := [], end_node_string := "" }]⟩ }
  ws.reverse.foldl addWordC cz0

/-- `FastCensor.__init__` with an explicit `words` collection: the mapping is
stored verbatim (`CHARS_MAPPING` when `none` is supplied), the delimiters
default to `default_delimiters`, and `build_trie` is called on the words. -/
def initCensor (words : List String) (mapping : Option Mapping)
    (delimiters : Option (List Char)) (strip : Option (List Char))
    (keepWordSet : Bool) (censorChar : Char) : Censor :=
  buildWords
    { mapping := mapping.getD CHARS_MAPPING,
      delimiters := delimiters.getD defaultDelimiters,
      strip := strip,
      keepWordSet := keepWordSet,
      censorChar := censorChar,
      wordSet := none,
      trie := ⟨[]⟩ }
    words

/-- `self.is_delimiter(char)`. -/
def isDelim (cz : Censor) (c : Char) : Bool := cz.delimiters.contains c

/-- `set.add` on the active-pointer set: insert if not already present.
The pointer set is modelled as a duplicate-free list in insertion order; the
theorems below do not depend on that order. -/
def ptrInsert (ps : List (Nat × Nat)) (x : Nat × Nat) : List (Nat × Nat) :=
  if ps.contains x then ps else ps ++ [x]

/-- The body of `check_text`'s inner loop for one active pointer
`(p, length)` at position `i` with current character `c`: advance through
every child reachable under label `c` (recording a span when the child is
terminal), then do the repetition step when allowed. -/
def advancePointer (cz : Censor) (allowRep : Bool) (i : Nat) (c : Char)
    (acc : List (Nat × Nat) × List (Int × Int)) (pl : Nat × Nat) :
    List (Nat × Nat) × List (Int × Int) :=
  let p := pl.1
  let len := pl.2
  let pnode := listGetD cz.trie.nodes p default
  let acc1 :=
    match childrenGet pnode.children c with
    | none => acc
    | some lst =>
      lst.foldl
        (fun a q =>
          let qnode := listGetD cz.trie.nodes q default
          let ms := if qnode.end_node_string ≠ ""
                    then a.2 ++ [((i : Int) - (len : Int), (i : Int) + 1)]
                    else a.2
          (ptrInsert a.1 (q, len + 1), ms))
        acc
  let repGo : Bool :=
    (pnode.val == some c) ||
    (match pnode.val with
     | some v =>
       match mappingGet cz.mapping v with
       | some subs => subs.contains c
       | none => false
     | none => false)
  if allowRep && repGo then (ptrInsert acc1.1 (p, len + 1), acc1.2) else acc1

/-- Scanner state of `check_text`: the `word_start` flag, the active pointer
set and the accumulated match spans. -/
structure ScanState where
  wordStart : Bool
  pointers : List (Nat × Nat)
  spans : List (Int × Int)
deriving Repr, DecidableEq

/-- One iteration of `check_text`'s character loop at position `i` with
character `c` (the text is already lower-cased): a delimiter clears the
pointers and sets `word_start` (the subsequent advance loop then runs over
the empty set); at a word start with `c` a child label of the head node,
seed one pointer per reachable head child with run length 1 and `continue`;
otherwise advance every active pointer. -/
def checkStep (cz : Censor) (allowRep : Bool) (st : ScanState) (ic : Nat × Char) :
    ScanState :=
  let i := ic.1
  let c := ic.2
  if isDelim cz c then
    let r := ([] : List (Nat × Nat)).foldl (advancePointer cz allowRep i c) ([], st.spans)
    { wordStart := true, pointers := r.1, spans := r.2 }
  else if st.wordStart &&
      (childrenGet (listGetD cz.trie.nodes 0 default).children c).isSome then
    let seeds := ((childrenGet (listGetD cz.trie.nodes 0 default).children c).getD []).map
      (fun q => (q, 1))
    { wordStart := false, pointers := seeds.foldl ptrInsert st.pointers,
      spans := st.spans }
  else
    let r := st.pointers.foldl (advancePointer cz allowRep i c) ([], st.spans)
    { wordStart := st.wordStart, pointers := r.1, spans := r.2 }

/-- `FastCensor.check_text`: lower-case the text, run the scanner over the
enumerated characters, return the recorded spans `(i - length, i + 1)`. -/
def checkText (cz : Censor) (allowRep : Bool) (s : String) : List (Int × Int) :=
  ((s.toList.map Char.toLower).enum.foldl (checkStep cz allowRep)
    { wordStart := true, pointers := [], spans := [] }).spans

/-- Clamp a Python slice index to `[0, n]` (negative indices count from the
end, as in Python). -/
def clampIdx (n : Nat) (x : Int) : Nat :=
  if x < 0 then ((n : Int) + x).toNat else min x.toNat n

/-- Python list slice assignment `l[a:b] = repl`: replace the (clamped)
slice with `repl`, which may change the list's length. -/
def sliceAssign (l : List Char) (a b : Int) (repl : List Char) : List Char :=
  let n := l.length
  let lo := clampIdx n a
  let hi := max lo (clampIdx n b)
  l.take lo ++ repl ++ l.drop hi

/-- `FastCensor.censor_text`: run `check_text`, then for each span `(i, j)`
execute `text_list[i:j+1] = censor_char * (j - i)` on the character list and
join the result. -/
def censorText (cz : Censor) (text : String) : String :=
  let spans := checkText cz true text
  ⟨spans.foldl
    (fun l m =>
      sliceAssign l m.1 (m.2 + 1) (List.replicate (m.2 - m.1).toNat cz.censorChar))
    text.toList⟩

/-- The state captured by `ProfanityMatchIterator.__init__`. -/
structure MatchIteratorState where
  censor : Censor
  string : String
  allowRepetitions : Bool
  pointers : List (Nat × Nat)
  wordStart : Bool
  i : Nat
deriving Repr, DecidableEq

/-- `ProfanityMatchIterator(trie, string)` with the default
`allow_repetitions=True`. -/
def mkMatchIterator (cz : Censor) (s : String) : MatchIteratorState :=
  { censor := cz, string := s, allowRepetitions := true, pointers := [],
    wordStart := true, i := 0 }

/-- A call to `ProfanityMatchIterator.__next__`.  The source's `__next__`
contains a `yield` statement, so in Python it is a generator function: the
call builds and returns a fresh generator object immediately, without
executing the scan body, and therefore never raises `StopIteration`.  The
call is modelled as always returning `some` suspended generator (represented
by the unchanged iterator state it closes over). -/
def matchIteratorNext (st : MatchIteratorState) : Option MatchIteratorState :=
  some st

/-- `FastCensor.text_has_match`: call `next` once on a fresh iterator and
return `False` exactly when it raises `StopIteration` (i.e. returns `none`). -/
def textHasMatch (cz : Censor) (text : String) : Bool :=
  (matchIteratorNext (mkMatchIterator cz text)).isSome

/-- The `for` loop inside `FastCensor.get_matches` iterates one iterator
object, calling `__next__` on it until a call raises `StopIteration`; since
a call leaves the iterator state untouched (the generator body never runs),
the loop terminates exactly when the single call on the initial state
returns `none`. -/
def getMatchesTerminates (cz : Censor) (text : String) : Prop :=
  matchIteratorNext (mkMatchIterator cz text) = none

/-- A Python value flowing through `has_word`'s loop variable `node`: either
a `TrieNode` (an arena index) or — after the buggy `node = node.children[c]`
assignment — a list of nodes. -/
inductive PyNodeVal where
  | node (idx : Nat)
  | nodeList (idxs : List Nat)
deriving Repr, DecidableEq

/-- The character loop of `has_word` when the word set is not retained:
`if c in node.children: node = node.children[c] else: return False`, then
finally `return node.end_node_string == word`.  Attribute access
(`.children`, `.end_node_string`) on a list raises `AttributeError`. -/
def hasWordWalk (t : Trie) (word : String) : PyNodeVal → List Char → Except PyErr Bool
  | v, [] =>
    match v with
    | .node idx => .ok ((listGetD t.nodes idx default).end_node_string == word)
    | .nodeList _ => .error .attributeError
  | v, c :: cs =>
    match v with
    | .node idx =>
      match childrenGet (listGetD t.nodes idx default).children c with
      | some lst => hasWordWalk t word (.nodeList lst) cs
      | none => .ok false
    | .nodeList _ => .error .attributeError

/-- `FastCensor.has_word`: when `self.words` is retained, test membership in
the word set; otherwise walk the trie from the head node over the word's raw
(not lower-cased) characters. -/
def hasWordC (cz : Censor) (word : String) : Except PyErr Bool :=
  match cz.wordSet with
  | some ws => .ok (ws.contains word)
  | none => hasWordWalk cz.trie word (.node 0) word.toList

/-- The stack loop of `get_words`: pop the last node index, push every child
list (in dict order), and yield the node's `end_node_string` when non-empty.
No visited set is kept, exactly as in the source.  The loop terminates when
the stack empties; `fuel` bounds the number of iterations and is chosen
large enough for every concrete trie evaluated below. -/
def getWordsAux (t : Trie) : Nat → List Nat → List String
  | 0, _ => []
  | fuel + 1, stack =>
    match stack.getLast? with
    | none => []
    | some idx =>
      let node := listGetD t.nodes idx default
      let stack2 := node.children.foldl (fun s p => s ++ p.2) stack.dropLast
      let rest := getWordsAux t fuel stack2
      if node.end_node_string ≠ "" then node.end_node_string :: rest else rest

/-- `FastCensor.get_words`, with a fuel budget ample for the tries below. -/
def getWords (t : Trie) : List String := getWordsAux t 1000 [0]

/-- The censor built from the single word "cat" with default configuration. -/
def czCat : Censor := initCensor ["cat"] none none none true '*'


/-- As `czCat` but with `keep_word_set=False`, so lookups must walk the trie. -/
def czCatNoSet : Censor := initCensor ["cat"] none none none false '*'

/-- The censor built from the single word "a" with default configuration. -/
def czA : Censor := initCensor ["a"] none none none true '*'

/-- Built from the Python list `["u", "v"]`: `build_trie` pops the last
element first, so "v" is inserted before "u". -/
def czUV1 : Censor := initCensor ["u", "v"] none none none true '*'

/-- Built from the Python list `["v", "u"]`: "u" is inserted before "v". -/
def czUV2 : Censor := initCensor ["v", "u"] none none none true '*'

/-- The censor built from the single word "v" with default configuration. -/
def czV : Censor := initCensor ["v"] none none none true '*'

/-- A caller-supplied substitution map that omits the canonical character
'a' from its own substitution set. -/
def customMap : Mapping := [('a', ['4'])]

/-- The censor built from the word "cat" under `customMap`. -/
def czCustom : Censor := initCensor ["cat"] (some customMap) none none true '*'

/-- The canonical characters of the nodes reachable from the head node under
one edge label (an order-insensitive observation at list length one). -/
def labelVals (t : Trie) (c : Char) : List (Option Char) :=
  ((childrenGet (listGetD t.nodes 0 default).children c).getD []).map
    (fun i => (listGetD t.nodes i default).val)

/-- The non-empty `end_node_string`s stored anywhere in the trie. -/
def terminalStrings (t : Trie) : List String :=
  (t.nodes.map TrieNode.end_node_string).filter (fun s => s ≠ "")

/-- The `words` argument of `build_trie`, tagged by Python runtime type. -/
inductive WordsArg where
  | pylist (ws : List String)
  | pyset (ws : List String)
  | pytuple (ws : List String)
  | pygen (ws : List String)
deriving Repr, DecidableEq

/-- `len(words)`: lists, sets and tuples have a length; calling `len` on a
generator raises `TypeError`. -/
def pyLen : WordsArg → Except PyErr Nat
  | .pylist ws => .ok ws.length
  | .pyset ws => .ok ws.length
  | .pytuple ws => .ok ws.length
  | .pygen _ => .error .typeError

/-- `words.pop()`: `list.pop` removes and returns the last element
(`IndexError` when empty); `set.pop` removes an unspecified element
(modelled as the last; `KeyError` when empty); tuples and generators have no
`pop` attribute, raising `AttributeError`. -/
def pyPop : WordsArg → Except PyErr (String × WordsArg)
  | .pylist ws =>
    match ws.getLast? with
    | some w => .ok (w, .pylist ws.dropLast)
    | none => .error .indexError
  | .pyset ws =>
    match ws.getLast? with
    | some w => .ok (w, .pyset ws.dropLast)
    | none => .error .keyError
  | .pytuple _ => .error .attributeError
  | .pygen _ => .error .attributeError

/-- The `while len(words) > 0: word = words.pop(); self.add_word(word)` loop
of `build_trie`.  `fuel` bounds the number of iterations; any value above
the collection's initial length is enough, because each successful pop
shortens the collection by one. -/
def buildLoop : Nat → Censor → WordsArg → Except PyErr (Censor × WordsArg)
  | 0, cz, w => .ok (cz, w)
  | fuel + 1, cz, w =>
    match pyLen w with
    | .error e => .error e
    | .ok n =>
      if n > 0 then
        match pyPop w with
        | .error e => .error e
        | .ok (word, w2) => buildLoop fuel (addWordC cz word) w2
      else .ok (cz, w)

/-- The length of the underlying word list (used only to pick the fuel). -/
def argLen : WordsArg → Nat
  | .pylist ws => ws.length
  | .pyset ws => ws.length
  | .pytuple ws => ws.length
  | .pygen ws => ws.length

/-- `FastCensor.build_trie` on a duck-typed `words` argument: reset the
retained word set, create a fresh head node, then run the pop loop; the
final `WordsArg` is the state the caller's collection is left in. -/
def buildTrieArg (cz : Censor) (w : WordsArg) : Except PyErr (Censor × WordsArg) :=
  let cz0 := { cz with
    wordSet := if cz.keepWordSet then some [] else none,
    trie := ⟨[{ val := none, children := [], end_node_string := "" }]⟩ }
  buildLoop (argLen w + 1) cz0 w

/-- `FastCensor.__init__` when the caller passes `words` directly: the
constructor hands the caller's own collection to `build_trie`. -/
def initCensorArg (w : WordsArg) (mapping : Option Mapping) (keepWordSet : Bool) :
    Except PyErr (Censor × WordsArg) :=
  buildTrieArg
    { mapping := mapping.getD CHARS_MAPPING, delimiters := defaultDelimiters,
      strip := none, keepWordSet := keepWordSet, censorChar := '*',
      wordSet := none, trie := ⟨[]⟩ } w

theorem listGetD_append_lt {α : Type} (l : List α) (x : α) (p : Nat) (d : α)
    (h : p < l.length) : listGetD (l ++ [x]) p d = listGetD l p d := by
  induction l generalizing p with
  | nil => exact absurd h (by simp)
  | cons a as ih =>
    cases p with
    | zero => rfl
    | succ n => exact ih n (by simpa using h)

theorem listGetD_listModify_self {α : Type} (l : List α) (p : Nat) (f : α → α)
    (d : α) (h : p < l.length) :
    listGetD (listModify l p f) p d = f (listGetD l p d) := by
  induction l generalizing p with
  | nil => exact absurd h (by simp)
  | cons a as ih =>
    cases p with
    | zero => rfl
    | succ n => exact ih n (by simpa using h)

theorem childrenGet_childrenAppend_self (cs : List (Char × List Nat)) (c : Char)
    (idx : Nat) :
    childrenGet (childrenAppend cs c idx) c = some ((childrenGet cs c).getD [] ++ [idx]) := by
  induction cs with
  | nil => simp [childrenAppend, childrenGet]
  | cons p ps ih =>
    by_cases h : p.1 = c
    · simp [childrenAppend, childrenGet, h]
    · simp [childrenAppend, childrenGet, h, ih]

theorem childrenGet_childrenAppend_ne (cs : List (Char × List Nat)) (c s : Char)
    (idx : Nat) (h : s ≠ c) :
    childrenGet (childrenAppend cs c idx) s = childrenGet cs s := by
  have hcs : ¬ c = s := fun e => h e.symm
  induction cs with
  | nil => simp [childrenAppend, childrenGet, hcs]
  | cons p ps ih =>
    by_cases h2 : p.1 = c
    · subst h2
      simp [childrenAppend, childrenGet, hcs]
    · simp [childrenAppend, childrenGet, h2, ih]

theorem childrenGet_foldlAppend_not_mem (l : List Char) (idx : Nat) (s : Char)
    (h : s ∉ l) (cs0 : List (Char × List Nat)) :
    childrenGet (l.foldl (fun cs ch => childrenAppend cs ch idx) cs0) s
      = childrenGet cs0 s := by
  induction l generalizing cs0 with
  | nil => rfl
  | cons a tl ih =>
    have ha : s ≠ a := fun e => h (e ▸ List.mem_cons_self a tl)
    have htl : s ∉ tl := fun e => h (List.mem_cons_of_mem a e)
    rw [List.foldl_cons, ih htl, childrenGet_childrenAppend_ne _ _ _ _ ha]

theorem childrenGet_foldlAppend_mem (l : List Char) (idx : Nat) (s : Char)
    (hmem : s ∈ l) (hnd : l.Nodup) (cs0 : List (Char × List Nat)) :
    childrenGet (l.foldl (fun cs ch => childrenAppend cs ch idx) cs0) s
      = some ((childrenGet cs0 s).getD [] ++ [idx]) := by
  induction l generalizing cs0 with
  | nil => cases hmem
  | cons a tl ih =>
    rw [List.foldl_cons]
    rcases List.mem_cons.mp hmem with he | htl
    · subst he
      have hnotin : s ∉ tl := (List.nodup_cons.mp hnd).1
      rw [childrenGet_foldlAppend_not_mem tl idx s hnotin,
        childrenGet_childrenAppend_self]
    · have hne : s ≠ a := by
        intro e
        subst e
        exact (List.nodup_cons.mp hnd).1 htl
      rw [ih htl (List.nodup_cons.mp hnd).2, childrenGet_childrenAppend_ne _ _ _ _ hne]

theorem addWordC_mapping (cz : Censor) (w : String) :
    (addWordC cz w).mapping = cz.mapping := by
  unfold addWordC
  by_cases h : pyStrip cz.strip w = ""
  · simp [h]
  · cases hws : cz.wordSet <;> simp [h, hws] <;> split <;> rfl

theorem foldl_addWordC_mapping (ws : List String) :
    ∀ cz : Censor, (ws.foldl addWordC cz).mapping = cz.mapping := by
  induction ws with
  | nil => intro cz; rfl
  | cons w tl ih => intro cz; rw [List.foldl_cons, ih, addWordC_mapping]

theorem buildLoop_pylist (fuel : Nat) :
    ∀ (ws : List String) (cz : Censor), ws.length < fuel →
    (buildLoop fuel cz (.pylist ws)).map Prod.snd = .ok (.pylist []) := by
  induction fuel with
  | zero => intro ws cz h; exact absurd h (Nat.not_lt_zero _)
  | succ n ih =>
    intro ws cz h
    by_cases hw : ws = []
    · subst hw
      rfl
    · have hlen : 0 < ws.length := List.length_pos.mpr hw
      have hlast : ws.getLast? = some (ws.getLast hw) := List.getLast?_eq_getLast ws hw
      have hdl : ws.dropLast.length < n := by
        have hh := List.length_dropLast ws
        omega
      have step := ih ws.dropLast (addWordC cz (ws.getLast hw)) hdl
      simp only [buildLoop, pyLen, pyPop, hlast, hlen, if_pos]
      exact step

theorem buildLoop_pyset (fuel : Nat) :
    ∀ (ws : List String) (cz : Censor), ws.length < fuel →
    (buildLoop fuel cz (.pyset ws)).map Prod.snd = .ok (.pyset []) := by
  induction fuel with
  | zero => intro ws cz h; exact absurd h (Nat.not_lt_zero _)
  | succ n ih =>
    intro ws cz h
    by_cases hw : ws = []
    · subst hw
      rfl
    · have hlen : 0 < ws.length := List.length_pos.mpr hw
      have hlast : ws.getLast? = some (ws.getLast hw) := List.getLast?_eq_getLast ws hw
      have hdl : ws.dropLast.length < n := by
        have hh := List.length_dropLast ws
        omega
      have step := ih ws.dropLast (addWordC cz (ws.getLast hw)) hdl
      simp only [buildLoop, pyLen, pyPop, hlast, hlen, if_pos]
      exact step

/-- Sanity anchor for the scanner embedding: the exact input and expected
spans of the repository's own `test_filter_word` (shorter word list,
matching the spec's end-to-end scenario). -/
theorem check_text_repo_test_vector :
    checkText (initCensor ["fudge", "rick"] none none none true '*') true
      "there fvdge fudgey  ri1i1i1liick  f_u_d_g_e cow swirl saa@ax crap"
      = [(6, 11), (12, 17), (20, 32)] := by decide

/-- Claim C1 (code bug): `text_has_match` returns `True` even on a text with
no match — `__next__` is a generator function (it contains `yield`), so
`next()` returns a generator object and never raises `StopIteration`, while
`check_text` on the same text reports no span. -/
theorem text_has_match_always_true_despite_no_match :
    textHasMatch czCat "dog" = true ∧ checkText czCat true "dog" = [] :=
  ⟨rfl, by decide⟩

/-- Claim C2 (code bug): on word "cat", `check_text "cat "` reports the
half-open span (0, 3), but `censor_text` executes
`text_list[0:4] = censor_char * 3`, deleting the space at index 3: the
output is three characters long instead of four, so a character outside the
span is not preserved.  A matchless text is returned unchanged. -/
theorem censor_text_deletes_char_after_span :
    checkText czCat true "cat " = [(0, 3)] ∧
    censorText czCat "cat " = "***" ∧
    ("cat ").length = 4 ∧ (censorText czCat "cat ").length = 3 ∧
    censorText czCat "dog" = "dog" := by decide

/-- Claim C3 (code bug): with the word set retained, `has_word "cat"`
returns `True`; with `keep_word_set=False` the trie walk executes
`node = node.children[c]`, binding a list of nodes to `node`, and the next
attribute access raises `AttributeError` instead of returning `True`. -/
theorem has_word_crashes_without_word_set :
    hasWordC czCat "cat" = .ok true ∧
    hasWordC czCatNoSet "cat" = .error .attributeError := by decide

/-- Claim C4 (code bug): the trie built from the single word "a" stores one
word, but `get_words` pushes the terminal node once per incoming label
('a', '@', '*', '4' all point at it) and keeps no visited set, so the word
is yielded four times instead of exactly once. -/
theorem get_words_duplicate_yields :
    getWords czA.trie = ["a", "a", "a", "a"] ∧
    czA.wordSet = some ["a"] := by decide

/-- Claim C5 (counterexample): building from the Python list ["u", "v"]
inserts "v" first (creating node 1, registered under 'v', '*' and 'u') and
then "u"; since label 'u' already has children, the new node 2 (canonical
'u') is appended under label 'u' only — not under '*' or 'v', although
'u''s substitution set is {u, *, v}.  This refutes the claim that a newly
created node is always registered under every substitution member. -/
theorem new_node_not_under_all_labels_cex :
    (listGetD czUV1.trie.nodes 2 default).val = some 'u' ∧
    mappingGet CHARS_MAPPING 'u' = some ['u', '*', 'v'] ∧
    childrenGet (listGetD czUV1.trie.nodes 0 default).children 'u' = some [1, 2] ∧
    childrenGet (listGetD czUV1.trie.nodes 0 default).children '*' = some [1] ∧
    childrenGet (listGetD czUV1.trie.nodes 0 default).children 'v' = some [1] := by decide

/-- Claim C5 (amended): when a new node is created because the parent has no
child list at all under the canonical character `c` (the `children.get(c) is
None` branch), it is registered under every member of `c`'s substitution set
(or under `c` alone when unmapped), appending to each label's existing child
list rather than replacing it — including labels that already map to other
children. -/
theorem register_new_child_all_labels (m : Mapping) (t : Trie) (p : Nat) (c : Char)
    (hp : p < t.nodes.length)
    (hnd : ((mappingGet m c).getD [c]).Nodup)
    (_hcnone : childrenGet (listGetD t.nodes p default).children c = none)
    (s : Char) (hs : s ∈ (mappingGet m c).getD [c]) :
    childrenGet (listGetD (registerNewChild m t p c).1.nodes p default).children s
      = some ((childrenGet (listGetD t.nodes p default).children s).getD []
          ++ [t.nodes.length]) := by
  have hlen : p < (t.nodes
      ++ [({ val := some c, children := [], end_node_string := "" } : TrieNode)]).length := by
    simpa using Nat.lt_succ_of_lt hp
  simp only [registerNewChild]
  rw [listGetD_listModify_self _ _ _ _ hlen, listGetD_append_lt _ _ _ _ hp]
  exact childrenGet_foldlAppend_mem _ _ _ hs hnd _

/-- Witness for the amended C5 theorem: registering a node for 'a' on the
head node of the "v"-trie appends it under '*' behind the existing child. -/
theorem register_new_child_all_labels_witness :
    childrenGet (listGetD (registerNewChild CHARS_MAPPING czV.trie 0 'a').1.nodes 0
        default).children '*' = some [1, 2] :=
  register_new_child_all_labels CHARS_MAPPING czV.trie 0 'a' (by decide) (by decide)
    (by decide) '*' (by decide)

/-- Claim C6 (counterexample): the two insertion orders of the word set
{"u", "v"} give tries in which the root label '*' reaches a node with
canonical character 'v' in one order and 'u' in the other — a difference
that neither terminal-string aliasing nor internal ordering explains. -/
theorem build_order_dependent_cex :
    labelVals czUV1.trie '*' = [some 'v'] ∧
    labelVals czUV2.trie '*' = [some 'u'] ∧
    labelVals czUV1.trie '*' ≠ labelVals czUV2.trie '*' := by decide

/-- Claim C6 (amended): batch construction is order-dependent when distinct
canonical characters share substitution members: for {"u", "v"} the
first-inserted word's node captures the shared labels '*' and the other
word's canonical character, while the later node is appended under its own
canonical character only; both orders still store the same two terminal
words. -/
theorem build_order_dependence_amended :
    (listGetD czUV1.trie.nodes 0 default).children
      = [('v', [1]), ('*', [1]), ('u', [1, 2])] ∧
    (listGetD czUV2.trie.nodes 0 default).children
      = [('u', [1]), ('*', [1]), ('v', [1, 2])] ∧
    (listGetD czUV1.trie.nodes 1 default).val = some 'v' ∧
    (listGetD czUV1.trie.nodes 2 default).val = some 'u' ∧
    (listGetD czUV2.trie.nodes 1 default).val = some 'u' ∧
    (listGetD czUV2.trie.nodes 2 default).val = some 'v' ∧
    terminalStrings czUV1.trie = ["v", "u"] ∧
    terminalStrings czUV2.trie = ["u", "v"] := by decide

/-- Claim C7 (counterexample): a custom map `{'a': {'4'}}` is kept exactly
as supplied — 'a' is not added to its own substitution set — and with the
word "cat" inserted under it (the retained word set shows the insertion
happened), scanning the exact unsubstituted spelling "cat" registers no
match. -/
theorem mapping_not_normalized_cex :
    mappingGet czCustom.mapping 'a' = some ['4'] ∧
    (['4'] : List Char).contains 'a' = false ∧
    hasWordC czCustom "cat" = .ok true ∧
    checkText czCustom true "cat" = [] := by decide

/-- Claim C7 (amended): a substitution map supplied at construction is
stored verbatim, with no defensive normalization; consequently, when the
caller omits a canonical character from its own substitution set, a word
containing that character fails to match its exact unsubstituted spelling
(shown by the counterexample above). -/
theorem mapping_stored_verbatim (m : Mapping) (ws : List String) :
    (initCensor ws (some m) none none true '*').mapping = m := by
  simp only [initCensor, buildWords, foldl_addWordC_mapping, Option.getD_some]

/-- Witness for the amended C7 theorem at the custom map. -/
theorem mapping_stored_verbatim_witness :
    (initCensor ["cat"] (some customMap) none none true '*').mapping = customMap :=
  mapping_stored_verbatim customMap ["cat"]

/-- Claim C8: on the trie holding exactly "cat", scanning "caaat" with
repetitions allowed yields the single half-open span (0, 5); with
repetitions disabled it yields no span. -/
theorem check_text_repetition_cat :
    checkText czCat true "caaat" = [(0, 5)] ∧
    checkText czCat false "caaat" = [] := by decide

/-- Claim C9: a call to `ProfanityMatchIterator.__next__` always returns a
fresh generator (it never raises `StopIteration`), so the iteration that
`get_matches` performs never terminates, for every censor and text. -/
theorem match_iterator_next_never_stops (cz : Censor) (text : String) :
    matchIteratorNext (mkMatchIterator cz text) = some (mkMatchIterator cz text) ∧
    ¬ getMatchesTerminates cz text :=
  ⟨rfl, fun h => Option.noConfusion h⟩

/-- Witness for C9 at a concrete censor and text. -/
theorem match_iterator_next_never_stops_witness :
    matchIteratorNext (mkMatchIterator czCat "dog") = some (mkMatchIterator czCat "dog") ∧
    ¬ getMatchesTerminates czCat "dog" :=
  match_iterator_next_never_stops czCat "dog"

/-- Claim C10: construction empties the caller's word collection — after
`__init__`/`build_trie` on a non-empty Python list or set, the collection
holds no elements — and the argument must support `len()` and `pop()`: a
non-empty tuple fails with `AttributeError` at `pop`, and a generator fails
with `TypeError` at `len`. -/
theorem build_trie_consumes_words (ws : List String) (m : Option Mapping) (k : Bool)
    (h : ws ≠ []) :
    (initCensorArg (.pylist ws) m k).map Prod.snd = .ok (.pylist []) ∧
    (initCensorArg (.pyset ws) m k).map Prod.snd = .ok (.pyset []) ∧
    initCensorArg (.pytuple ws) m k = .error .attributeError ∧
    initCensorArg (.pygen ws) m k = .error .typeError := by
  have hlen : 0 < ws.length := List.length_pos.mpr h
  refine ⟨?_, ?_, ?_, ?_⟩
  · exact buildLoop_pylist (ws.length + 1) ws _ (Nat.lt_succ_self _)
  · exact buildLoop_pyset (ws.length + 1) ws _ (Nat.lt_succ_self _)
  · simp only [initCensorArg, buildTrieArg, argLen, buildLoop, pyLen, pyPop, hlen, if_pos]
  · rfl

/-- Witness for C10 at the one-element list ["cat"]. -/
theorem build_trie_consumes_words_witness :
    (initCensorArg (.pylist ["cat"]) none true).map Prod.snd = .ok (.pylist []) ∧
    (initCensorArg (.pyset ["cat"]) none true).map Prod.snd = .ok (.pyset []) ∧
    initCensorArg (.pytuple ["cat"]) none true = .error .attributeError ∧
    initCensorArg (.pygen ["cat"]) none true = .error .typeError :=
  build_trie_consumes_words ["cat"] none true (by decide)
